import Mathlib

/-!
Verification of the code-to-diagram editor (`src/intents/design_editor/app.tsx`).

The development shallowly embeds the claim-relevant parts of the editor:

* the JS string primitives the source relies on (`trim`, `trimEnd`,
  `split("\n")`, `split(/[\s,]+/)`, `parseFloat`, `||` on strings,
  indexing with `??`), modelled over `List Char` / `String`;
* `renderDiagram` (the render dispatcher over the three diagram
  libraries), with the external renderers as oracle functions in an
  environment record and thrown exceptions as `Except` errors;
* the preview `useEffect`, `handleSyntaxChange`, and the event loop of
  the component, as a step function on the component state;
* `handleAddToDesign` (SVG packaging, upload, insertion), returning the
  final state together with a trace of the state updates and external
  calls it performs.

JS numbers appear only through `parseFloat` and exact plus/minus arithmetic on
small decimals, so they are modelled as `Option Rat`, `none` playing the
role of `NaN` (which propagates through arithmetic and is never equal to
a real result).
-/

namespace CodeToDiagram

/-! ## JS string primitives -/

/-- JS whitespace (the characters of `\s` relevant to this code base):
space, tab, newline, carriage return, vertical tab, form feed. -/
def isWsB (c : Char) : Bool :=
  c = ' ' || c = '\t' || c = '\n' || c = '\r' || c = '\x0b' || c = '\x0c'

/-- JS `String.prototype.trimEnd` on a character list: drop trailing
whitespace. -/
def trimEndL (l : List Char) : List Char := l.rdropWhile isWsB

/-- JS `String.prototype.trim` on a character list: drop trailing then
leading whitespace. -/
def jsTrimL (l : List Char) : List Char := (trimEndL l).dropWhile isWsB

/-- JS `code.split("\n")` on a character list.  Always returns at least
one (possibly empty) line; a trailing newline yields a trailing empty
line, exactly as in JS. -/
def splitLinesL : List Char → List (List Char)
  | [] => [[]]
  | c :: t =>
    if c = '\n' then [] :: splitLinesL t
    else
      match splitLinesL t with
      | [] => [[c]]
      | h :: r => (c :: h) :: r

/-- JS `lines.join("\n")` on character lists. -/
def joinLinesL : List (List Char) → List Char
  | [] => []
  | [l] => l
  | l :: l' :: r => l ++ '\n' :: joinLinesL (l' :: r)

/-- JS `String.prototype.trim` on a `String`. -/
def jsTrimStr (s : String) : String := String.mk (jsTrimL s.data)

/-- The nomnoml input normalization of `renderDiagram`
(`code.split("\n").map(line => line.trimEnd()).join("\n").trim()`),
on a character list. -/
def nomnomlCleanL (l : List Char) : List Char :=
  jsTrimL (joinLinesL ((splitLinesL l).map trimEndL))

/-- The nomnoml input normalization on a `String`. -/
def nomnomlCleanStr (s : String) : String := String.mk (nomnomlCleanL s.data)

/-! ## JS numbers and `parseFloat`

A JS number is modelled as `Option Rat`; `none` stands for `NaN`.
Arithmetic on `NaN` propagates it. -/

/-- Digit list to natural number value. -/
def digitsVal (l : List Char) : Nat :=
  l.foldl (fun acc c => acc * 10 + (c.toNat - '0'.toNat)) 0

/-- The syntactic part of JS `parseFloat`: optional leading whitespace,
optional sign, digits with an optional fractional part; any trailing
garbage is ignored.  Returns `none` (`NaN`) when no digits are found,
otherwise the sign bit, the integer-part value, the fractional-part
value and the fractional-part digit count. -/
def parseFloatParts (s : String) : Option (Bool × Nat × Nat × Nat) :=
  let l := s.data.dropWhile isWsB
  let neg := l.head? = some ('-')
  let l' := if l.head? = some ('-') || l.head? = some ('+') then l.drop 1 else l
  let intDigits := l'.takeWhile Char.isDigit
  let rest := l'.dropWhile Char.isDigit
  let fracDigits :=
    match rest with
    | '.' :: t => t.takeWhile Char.isDigit
    | _ => []
  if intDigits.isEmpty && fracDigits.isEmpty then none
  else some (neg, digitsVal intDigits, digitsVal fracDigits, fracDigits.length)

/-- The numeric value of a `parseFloatParts` result. -/
def partsToRat : Bool × Nat × Nat × Nat → Rat
  | (neg, i, f, k) =>
    (if neg then -1 else 1) * ((i : Rat) + (f : Rat) / ((10 : Rat) ^ k))

/-- JS `parseFloat` restricted to the decimal literals this code base
produces and consumes (no exponents or infinities, which never occur
here). -/
def parseFloatJs (s : String) : Option Rat :=
  (parseFloatParts s).map partsToRat

/-- JS `a + q` where `a` may be `NaN`. -/
def jsAdd (a : Option Rat) (q : Rat) : Option Rat := a.map (fun x => x + q)

/-- JS `a - q` where `a` may be `NaN`. -/
def jsSub (a : Option Rat) (q : Rat) : Option Rat := a.map (fun x => x - q)

/-- JS `attr || dflt` for a `getAttribute` result: `null` (absent) and
the empty string are falsy, every other string is kept. -/
def jsOrStr (a : Option String) (dflt : String) : String :=
  match a with
  | none => dflt
  | some s => if s = "" then dflt else s

/-- JS `parts[i] ?? dflt`: an out-of-range index gives `undefined`,
replaced by the default; an in-range `NaN` is kept. -/
def jsIndex (parts : List (Option Rat)) (i : Nat) (dflt : Option Rat) :
    Option Rat :=
  match parts.get? i with
  | none => dflt
  | some v => v

/-- Is a character a separator of the viewBox split `/[\s,]+/`? -/
def isSepB (c : Char) : Bool := isWsB c || c = ','

/-- JS `s.split(/[\s,]+/)` on a character list: fields separated by
maximal runs of whitespace/comma characters, with an empty field at an
end that starts or finishes with a separator. -/
def splitSepsL : List Char → List (List Char)
  | [] => [[]]
  | c :: t =>
    if isSepB c then
      match t with
      | [] => [[], []]
      | d :: _ =>
        if isSepB d then splitSepsL t else [] :: splitSepsL t
    else
      match splitSepsL t with
      | [] => [[c]]
      | h :: r => (c :: h) :: r

/-! ## Data model

The three diagram syntaxes (`DiagramSyntax` in the source; `syntax` is a
Lean keyword, so the type is `DiagramSyn` and the state field `syn`). -/

inductive DiagramSyn
  | graphviz
  | nomnoml
  | wavedrom
deriving DecidableEq, Repr

/-- One entry of `SYNTAX_CONFIGS` (`SyntaxConfig` in the source).  The
static cheat-sheet entries are pure UI data with no bearing on any
claim and are omitted; only the default snippet is kept. -/
structure SynConfig where
  defaultCode : String
deriving DecidableEq, Repr

/-- The `SYNTAX_CONFIGS` table: the default example snippet of each
syntax, verbatim from the source. -/
def SYNTAX_CONFIGS : DiagramSyn → SynConfig
  | .graphviz =>
    { defaultCode := "digraph G \x7b\n  rankdir=TB\n\n  Start [shape=ellipse]\n  Process [shape=box]\n  Decision [shape=diamond]\n  End [shape=ellipse]\n\n  Start -> Process\n  Process -> Decision\n  Decision -> Yes [label=\"yes\"]\n  Decision -> No [label=\"no\"]\n  Yes -> End\n  No -> Process\n\x7d" }
  | .nomnoml =>
    { defaultCode := "[User] -> [Application]\n[Application] -> [Database]\n\n[User|\n  +name: string\n  +email: string\n  |\n  +login()\n  +logout()\n]\n\n[Application|\n  -config: Config\n  |\n  +start()\n  +stop()\n]\n\n[Database|\n  +connect()\n  +query()\n]" }
  | .wavedrom =>
    { defaultCode := "\x7b \"signal\": [\n  \x7b \"name\": \"clk\", \"wave\": \"p.......\" \x7d,\n  \x7b \"name\": \"data\", \"wave\": \"x.345x..\", \"data\": [\"A\", \"B\", \"C\"] \x7d,\n  \x7b \"name\": \"req\", \"wave\": \"0.1..0..\" \x7d,\n  \x7b \"name\": \"ack\", \"wave\": \"1....0..\" \x7d\n]\x7d" }

/-- The attributes of a rendered SVG element that the packager reads
(`getAttribute` returns `none` when the attribute is absent). -/
structure SvgElem where
  widthAttr : Option String
  heightAttr : Option String
  viewBoxAttr : Option String
deriving DecidableEq, Repr

/-- Contents of a mount point (a DOM container): empty, or holding one
rendered SVG element.  All three external renderers produce SVG
documents, so a successful render always leaves an SVG that
`querySelector("svg")` finds. -/
inductive Content
  | empty
  | filled (e : SvgElem)
deriving DecidableEq, Repr

/-- The two host insertion entry points, in source order
(`[addElementAtPoint, addElementAtCursor]`). -/
inductive EntryPoint
  | atPoint
  | atCursor
deriving DecidableEq, Repr

/-- The two user-visible error strings. -/
inductive ErrMsg
  | invalidSyn
  | addFailed
deriving DecidableEq, Repr

/-- The viewBox attribute of the packaged clone: either kept verbatim
from the original element (when the original attribute is absent or
empty, i.e. falsy), or the four adjusted numbers. -/
inductive ViewBoxOut
  | kept (orig : Option String)
  | adjusted (x y w h : Option Rat)
deriving DecidableEq, Repr

/-- The packaged SVG clone: its final width/height attributes as JS
numbers, its viewBox, and the inserted white background rectangle. -/
structure Packaged where
  widthOut : Option Rat
  heightOut : Option Rat
  viewBoxOut : ViewBoxOut
  whiteBgInserted : Bool
deriving DecidableEq, Repr

/-- One state update or external call performed by the component; the
handlers below return a trace of these. -/
inductive Action
  | setLoading (b : Bool)
  | setError (e : Option ErrMsg)
  | callViz (code : String)
  | callNomnoml (code : String)
  | callJsonParse (text : String)
  | callRenderAny
  | callStringify
  | callUpload
  | callInsert
deriving DecidableEq, Repr

/-- The environment: the external renderer libraries, the host bridge,
and the DOM facts the component reads.  Thrown exceptions / rejected
promises of the external calls are `Except.error`. -/
structure Env where
  /-- `vizInstance.renderSVGElement` of the Graphviz backend. -/
  vizRender : String → Except Unit SvgElem
  /-- `nomnoml.renderSvg`, composed with the browser parsing the
  returned markup into the element `querySelector` finds. -/
  nomnomlRenderSvg : String → Except Unit SvgElem
  /-- `JSON.parse`; the parsed document is kept opaque. -/
  jsonParse : String → Except Unit String
  /-- `wavedrom.renderAny`; the intermediate tree is kept opaque. -/
  renderAny : String → Except Unit String
  /-- `wavedrom.onml.stringify`, composed with the browser parsing the
  markup into the element `querySelector` finds. -/
  onmlStringify : String → Except Unit SvgElem
  /-- The host capability query `isSupported` per entry point. -/
  isSupported : EntryPoint → Bool
  /-- Whether the off-screen export container is mounted
  (`exportRef.current`). -/
  exportRefPresent : Bool
  /-- The host `upload` call on the serialized packaged clone; returns
  an asset reference id. -/
  uploadCall : Packaged → Except Unit Nat
  /-- The selected `addElement` host call on the uploaded reference. -/
  insertCall : Nat → Except Unit Unit

/-- `[addElementAtPoint, addElementAtCursor].find((fn) => isSupported(fn))`. -/
def chooseAddElement (sup : EntryPoint → Bool) : Option EntryPoint :=
  if sup EntryPoint.atPoint then some EntryPoint.atPoint
  else if sup EntryPoint.atCursor then some EntryPoint.atCursor
  else none

/-- The component state (`useState` hooks of `App`). -/
structure AppState where
  syn : DiagramSyn
  codeInput : String
  isLoading : Bool
  error : Option ErrMsg
  hasValidDiagram : Bool
  /-- `vizInstance`: `none` until the async Viz.js setup resolves. -/
  vizInstance : Option Unit
deriving DecidableEq, Repr

/-! ## Render dispatcher -/

/-- Result of `renderDiagram`: the mount point content it leaves, its
boolean outcome, and the external renderer calls it made. -/
structure RenderResult where
  content : Content
  ok : Bool
  calls : List Action
deriving DecidableEq, Repr

/-- `renderDiagram(container, code)`, for the active syntax `syn` and
Viz.js handle `viz`.  `prior` is the content the mount point held
before the call; the source clears it (`container.innerHTML = ""`)
before anything else, so the result never depends on it.  Exceptions of
the external libraries are caught and turned into a `false` outcome. -/
def renderDiagram (env : Env) (syn : DiagramSyn) (viz : Option Unit)
    (prior : Content) (code : String) : RenderResult :=
  -- container.innerHTML = "" : the prior content is discarded
  let _ := prior
  if jsTrimL code.data = [] then { content := .empty, ok := false, calls := [] }
  else
    match syn with
    | .graphviz =>
      match viz with
      | none => { content := .empty, ok := false, calls := [] }
      | some _ =>
        match env.vizRender code with
        | .ok svg =>
          { content := .filled svg, ok := true, calls := [.callViz code] }
        | .error _ =>
          { content := .empty, ok := false, calls := [.callViz code] }
    | .nomnoml =>
      let cleaned := nomnomlCleanStr code
      match env.nomnomlRenderSvg cleaned with
      | .ok svg =>
        { content := .filled svg, ok := true, calls := [.callNomnoml cleaned] }
      | .error _ =>
        { content := .empty, ok := false, calls := [.callNomnoml cleaned] }
    | .wavedrom =>
      let trimmed := jsTrimStr code
      match env.jsonParse trimmed with
      | .error _ =>
        { content := .empty, ok := false, calls := [.callJsonParse trimmed] }
      | .ok parsed =>
        match env.renderAny parsed with
        | .error _ =>
          { content := .empty, ok := false
            calls := [.callJsonParse trimmed, .callRenderAny] }
        | .ok onml =>
          match env.onmlStringify onml with
          | .error _ =>
            { content := .empty, ok := false
              calls := [.callJsonParse trimmed, .callRenderAny, .callStringify] }
          | .ok svg =>
            { content := .filled svg, ok := true
              calls := [.callJsonParse trimmed, .callRenderAny, .callStringify] }

/-! ## Asset packager -/

/-- The packaging steps of `handleAddToDesign` (lines 256-295 of the
source): read width/height with `parseFloat(attr || default)`, add the
fixed 20-unit padding on each side, expand a declared (truthy) viewBox
by the same padding, and insert the oversized white background rect. -/
def packageSvg (e : SvgElem) : Packaged :=
  let width := parseFloatJs (jsOrStr e.widthAttr ("400"))
  let height := parseFloatJs (jsOrStr e.heightAttr ("300"))
  let padding : Rat := 20
  let totalWidth := jsAdd width (padding * 2)
  let totalHeight := jsAdd height (padding * 2)
  let vb :=
    match e.viewBoxAttr with
    | none => ViewBoxOut.kept none
    | some s =>
      if s = "" then ViewBoxOut.kept (some (""))
      else
        let parts := (splitSepsL s.data).map (fun cs => parseFloatJs (String.mk cs))
        let vbX := jsIndex parts 0 (some 0)
        let vbY := jsIndex parts 1 (some 0)
        let vbW := jsIndex parts 2 width
        let vbH := jsIndex parts 3 height
        ViewBoxOut.adjusted (jsSub vbX padding) (jsSub vbY padding)
          (jsAdd vbW (padding * 2)) (jsAdd vbH (padding * 2))
  { widthOut := totalWidth, heightOut := totalHeight, viewBoxOut := vb
    whiteBgInserted := true }

/-! ## Preview effect and event loop -/

/-- The preview `useEffect` (lines 209-234): render into the (always
mounted) preview container, record the outcome in `hasValidDiagram`,
clear the error on success, set the generic message on failure with
non-blank text, and leave the error untouched on failure with blank
text. -/
def applyPreviewEffect (env : Env) (s : AppState) : AppState :=
  let r := renderDiagram env s.syn s.vizInstance Content.empty s.codeInput
  { s with
    hasValidDiagram := r.ok
    error :=
      if r.ok then none
      else if jsTrimL s.codeInput.data = [] then s.error
      else some ErrMsg.invalidSyn }

/-- `disabled={!addElement || isLoading || !hasValidDiagram}` of the
"Add to design" button. -/
def buttonDisabled (env : Env) (s : AppState) : Bool :=
  (chooseAddElement env.isSupported).isNone || s.isLoading || !s.hasValidDiagram

/-! ## Insertion handler -/

/-- The common exit of every caught failure of `handleAddToDesign`: the
generic error is set and the `finally` clause clears the busy flag. -/
def addFailExit (s : AppState) (c : Content) (tr : List Action) :
    AppState × Content × List Action :=
  ({ s with isLoading := false, error := some ErrMsg.addFailed }, c,
    tr ++ [Action.setError (some ErrMsg.addFailed), Action.setLoading false])

/-- `handleAddToDesign` (lines 236-336): early return when no insertion
entry point is usable or the export container is missing; otherwise set
the busy flag, clear the error, render fresh into the export container,
package, upload, insert, catch any failure into the generic error, and
clear the busy flag in a `finally`.  Returns the final state, the final
export container content, and the trace of updates and external calls. -/
def handleAddToDesign (env : Env) (s : AppState) (exportC : Content) :
    AppState × Content × List Action :=
  match chooseAddElement env.isSupported, env.exportRefPresent with
  | none, _ => (s, exportC, [])
  | some _, false => (s, exportC, [])
  | some _, true =>
    let pre : List Action := [Action.setLoading true, Action.setError none]
    let r := renderDiagram env s.syn s.vizInstance exportC s.codeInput
    if r.ok = false then
      -- throw new Error("Failed to render diagram")
      addFailExit s r.content (pre ++ r.calls)
    else
      match r.content with
      | .empty =>
        -- throw new Error("No SVG found")
        addFailExit s Content.empty (pre ++ r.calls)
      | .filled svgEl =>
        let packaged := packageSvg svgEl
        match env.uploadCall packaged with
        | .error _ =>
          addFailExit s (Content.filled svgEl) (pre ++ r.calls ++ [Action.callUpload])
        | .ok ref =>
          match env.insertCall ref with
          | .error _ =>
            addFailExit s (Content.filled svgEl)
              (pre ++ r.calls ++ [Action.callUpload, Action.callInsert])
          | .ok _ =>
            ({ s with isLoading := false, error := none }, Content.filled svgEl,
              pre ++ r.calls ++ [Action.callUpload, Action.callInsert, Action.setLoading false])

/-! ## Component lifetime -/

/-- The discrete events the component reacts to: a keystroke in the code
box, a change of the syntax selector (`handleSyntaxChange` plus the
re-run of the preview effect), completion of the one-time Viz.js setup,
and a completed run of the insertion action. -/
inductive Event
  | keystroke (text : String)
  | selectSyn (y : DiagramSyn)
  | vizReady
  | insertAction
deriving DecidableEq, Repr

/-- One event step.  Every state change re-runs the preview effect
(its dependency list is `[codeInput, syntax, renderDiagram, intl]`, and
`renderDiagram`'s identity changes with `vizInstance`); the insertion
action leaves those dependencies unchanged, so no re-render follows it. -/
def step (env : Env) (s : AppState) (ev : Event) : AppState :=
  match ev with
  | .keystroke t => applyPreviewEffect env { s with codeInput := t }
  | .selectSyn y =>
    applyPreviewEffect env
      { s with syn := y, codeInput := (SYNTAX_CONFIGS y).defaultCode, error := none }
  | .vizReady => applyPreviewEffect env { s with vizInstance := some () }
  | .insertAction => (handleAddToDesign env s Content.empty).1

/-- The state seeded at mount, before the first effect run. -/
def initState : AppState :=
  { syn := DiagramSyn.graphviz
    codeInput := (SYNTAX_CONFIGS DiagramSyn.graphviz).defaultCode
    isLoading := false
    error := none
    hasValidDiagram := false
    vizInstance := none }

/-- The state right after mount (the preview effect has run once). -/
def mountState (env : Env) : AppState := applyPreviewEffect env initState

/-- The state after a sequence of events from mount. -/
def runEvents (env : Env) (evs : List Event) : AppState :=
  evs.foldl (step env) (mountState env)


lemma renderDiagram_indep (env : Env) (syn : DiagramSyn) (viz : Option Unit)
    (p q : Content) (code : String) :
    renderDiagram env syn viz p code = renderDiagram env syn viz q code := rfl

lemma renderDiagram_shape (env : Env) (syn : DiagramSyn) (viz : Option Unit)
    (p : Content) (code : String) :
    ((renderDiagram env syn viz p code).ok = true ∧
      ∃ e, (renderDiagram env syn viz p code).content = Content.filled e) ∨
    ((renderDiagram env syn viz p code).ok = false ∧
      (renderDiagram env syn viz p code).content = Content.empty) := by
  unfold renderDiagram
  split
  · simp
  · match syn with
    | DiagramSyn.graphviz =>
      match viz with
      | none => simp
      | some _ => rcases hv : env.vizRender code with e | svg <;> simp [hv]
    | DiagramSyn.nomnoml =>
      rcases hn : env.nomnomlRenderSvg (nomnomlCleanStr code) with e | svg <;> simp [hn]
    | DiagramSyn.wavedrom =>
      rcases hjp : env.jsonParse (jsTrimStr code) with e | parsed
      · simp [hjp]
      · rcases hra : env.renderAny parsed with e | onml
        · simp [hjp, hra]
        · rcases hst : env.onmlStringify onml with e | svg <;> simp [hjp, hra, hst]

lemma renderDiagram_blank (env : Env) (syn : DiagramSyn) (viz : Option Unit)
    (p : Content) (code : String) (h : jsTrimL code.data = []) :
    renderDiagram env syn viz p code = { content := .empty, ok := false, calls := [] } := by
  unfold renderDiagram
  simp [h]

lemma renderDiagram_gv_none (env : Env) (p : Content) (code : String) :
    renderDiagram env DiagramSyn.graphviz none p code =
      { content := .empty, ok := false, calls := [] } := by
  unfold renderDiagram
  split <;> rfl


def hostCalls (tr : List Action) : List Action :=
  tr.filter fun a => a = Action.callUpload || a = Action.callInsert

lemma hATD_state (env : Env) (s : AppState) (c : Content) :
    (handleAddToDesign env s c).1.syn = s.syn ∧
    (handleAddToDesign env s c).1.codeInput = s.codeInput ∧
    (handleAddToDesign env s c).1.vizInstance = s.vizInstance ∧
    (handleAddToDesign env s c).1.hasValidDiagram = s.hasValidDiagram := by
  unfold handleAddToDesign
  rcases hce : chooseAddElement env.isSupported with _ | ep
  · simp
  · rcases hre : env.exportRefPresent with _ | _
    · simp
    · simp only []
      split
      · simp [addFailExit]
      · rcases hc : (renderDiagram env s.syn s.vizInstance c s.codeInput).content with _ | svgEl
        · simp [hc, addFailExit]
        · simp only [hc]
          rcases hu : env.uploadCall (packageSvg svgEl) with e | ref
          · simp [hu, addFailExit]
          · simp only [hu]
            rcases hi : env.insertCall ref with e | u <;> simp [hi, addFailExit]


lemma renderDiagram_hostCalls (env : Env) (syn : DiagramSyn) (viz : Option Unit)
    (p : Content) (code : String) :
    hostCalls (renderDiagram env syn viz p code).calls = [] := by
  unfold renderDiagram
  split
  · simp [hostCalls]
  · match syn with
    | DiagramSyn.graphviz =>
      match viz with
      | none => simp [hostCalls]
      | some _ => rcases hv : env.vizRender code with e | svg <;> simp [hv, hostCalls]
    | DiagramSyn.nomnoml =>
      rcases hn : env.nomnomlRenderSvg (nomnomlCleanStr code) with e | svg <;>
        simp [hn, hostCalls]
    | DiagramSyn.wavedrom =>
      rcases hjp : env.jsonParse (jsTrimStr code) with e | parsed
      · simp [hjp, hostCalls]
      · rcases hra : env.renderAny parsed with e | onml
        · simp [hjp, hra, hostCalls]
        · rcases hst : env.onmlStringify onml with e | svg <;> simp [hjp, hra, hst, hostCalls]

lemma hATD_early (env : Env) (s : AppState) (c : Content)
    (h : chooseAddElement env.isSupported = none ∨ env.exportRefPresent = false) :
    handleAddToDesign env s c = (s, c, []) := by
  unfold handleAddToDesign
  rcases h with h | h
  · simp [h]
  · rcases hce : chooseAddElement env.isSupported with _ | ep <;> simp [h]

lemma getLast?_cons_append_cons (x : Action) (l : List Action) (a : Action)
    (m : List Action) :
    (x :: (l ++ a :: m)).getLast? = (a :: m).getLast? := by
  rw [show x :: (l ++ a :: m) = (x :: l) ++ a :: m from rfl]
  exact List.getLast?_append_cons _ _ _

lemma hATD_busy (env : Env) (s : AppState) (c : Content)
    (hA : (chooseAddElement env.isSupported).isSome = true)
    (hE : env.exportRefPresent = true) :
    (handleAddToDesign env s c).1.isLoading = false ∧
    (handleAddToDesign env s c).2.2.head? = some (Action.setLoading true) ∧
    (handleAddToDesign env s c).2.2.getLast? = some (Action.setLoading false) := by
  obtain ⟨ep, hep⟩ := Option.isSome_iff_exists.mp hA
  unfold handleAddToDesign
  rw [hep, hE]
  simp only []
  split
  · simp [addFailExit, getLast?_cons_append_cons]
  · rcases hc : (renderDiagram env s.syn s.vizInstance c s.codeInput).content with _ | svgEl
    · simp [hc, addFailExit, getLast?_cons_append_cons]
    · simp only [hc]
      rcases hu : env.uploadCall (packageSvg svgEl) with e | ref
      · simp [hu, addFailExit, getLast?_cons_append_cons]
      · simp only [hu]
        rcases hi : env.insertCall ref with e | u <;>
          simp [hi, addFailExit, getLast?_cons_append_cons]


@[simp] lemma hostCalls_nil : hostCalls [] = [] := rfl

@[simp] lemma hostCalls_cons_setLoading (b : Bool) (tr : List Action) :
    hostCalls (Action.setLoading b :: tr) = hostCalls tr := by simp [hostCalls]

@[simp] lemma hostCalls_cons_setError (e : Option ErrMsg) (tr : List Action) :
    hostCalls (Action.setError e :: tr) = hostCalls tr := by simp [hostCalls]

@[simp] lemma hostCalls_cons_callViz (code : String) (tr : List Action) :
    hostCalls (Action.callViz code :: tr) = hostCalls tr := by simp [hostCalls]

@[simp] lemma hostCalls_cons_callNomnoml (code : String) (tr : List Action) :
    hostCalls (Action.callNomnoml code :: tr) = hostCalls tr := by simp [hostCalls]

@[simp] lemma hostCalls_cons_callJsonParse (t : String) (tr : List Action) :
    hostCalls (Action.callJsonParse t :: tr) = hostCalls tr := by simp [hostCalls]

@[simp] lemma hostCalls_cons_callRenderAny (tr : List Action) :
    hostCalls (Action.callRenderAny :: tr) = hostCalls tr := by simp [hostCalls]

@[simp] lemma hostCalls_cons_callStringify (tr : List Action) :
    hostCalls (Action.callStringify :: tr) = hostCalls tr := by simp [hostCalls]

@[simp] lemma hostCalls_cons_callUpload (tr : List Action) :
    hostCalls (Action.callUpload :: tr) = Action.callUpload :: hostCalls tr := by
  simp [hostCalls]

@[simp] lemma hostCalls_cons_callInsert (tr : List Action) :
    hostCalls (Action.callInsert :: tr) = Action.callInsert :: hostCalls tr := by
  simp [hostCalls]

@[simp] lemma hostCalls_append (l m : List Action) :
    hostCalls (l ++ m) = hostCalls l ++ hostCalls m := by
  simp [hostCalls]

lemma hATD_calls (env : Env) (s : AppState) (c : Content)
    (hA : (chooseAddElement env.isSupported).isSome = true)
    (hE : env.exportRefPresent = true) :
    ((renderDiagram env s.syn s.vizInstance c s.codeInput).ok = false →
      hostCalls (handleAddToDesign env s c).2.2 = []) ∧
    (∀ svgEl,
      (renderDiagram env s.syn s.vizInstance c s.codeInput).content = Content.filled svgEl →
      (∀ ref, env.uploadCall (packageSvg svgEl) = Except.ok ref →
        hostCalls (handleAddToDesign env s c).2.2 = [Action.callUpload, Action.callInsert]) ∧
      (∀ err, env.uploadCall (packageSvg svgEl) = Except.error err →
        hostCalls (handleAddToDesign env s c).2.2 = [Action.callUpload])) := by
  obtain ⟨ep, hep⟩ := Option.isSome_iff_exists.mp hA
  have hshape := renderDiagram_shape env s.syn s.vizInstance c s.codeInput
  have hrc := renderDiagram_hostCalls env s.syn s.vizInstance c s.codeInput
  unfold handleAddToDesign
  rw [hep, hE]
  simp only []
  split
  case isTrue hok =>
    constructor
    · intro _
      simp [addFailExit, hrc]
    · intro svgEl hcontent
      rcases hshape with ⟨ht, _⟩ | ⟨_, hcont⟩
      · rw [ht] at hok; cases hok
      · rw [hcont] at hcontent; cases hcontent
  case isFalse hok =>
    constructor
    · intro hok'; exact absurd hok' hok
    · intro svgEl hcontent
      simp only [hcontent]
      constructor
      · intro ref hu
        simp only [hu]
        rcases hi : env.insertCall ref with e | u <;>
          simp [hi, addFailExit, hrc]
      · intro err hu
        simp only [hu]
        simp [addFailExit, hrc]


/-- The C1 invariant: the validity flag equals the outcome of rendering
the current text with the current syntax and backend handle. -/
def validInv (env : Env) (s : AppState) : Prop :=
  s.hasValidDiagram =
    (renderDiagram env s.syn s.vizInstance Content.empty s.codeInput).ok

lemma applyPreviewEffect_validInv (env : Env) (s : AppState) :
    validInv env (applyPreviewEffect env s) := by
  simp [validInv, applyPreviewEffect]

lemma step_validInv (env : Env) (s : AppState) (ev : Event)
    (h : validInv env s) : validInv env (step env s ev) := by
  cases ev with
  | keystroke t => exact applyPreviewEffect_validInv env _
  | selectSyn y => exact applyPreviewEffect_validInv env _
  | vizReady => exact applyPreviewEffect_validInv env _
  | insertAction =>
    obtain ⟨h1, h2, h3, h4⟩ := hATD_state env s Content.empty
    unfold validInv step
    rw [h1, h2, h3, h4]
    exact h

lemma foldl_validInv (env : Env) (evs : List Event) :
    ∀ s : AppState, validInv env s → validInv env (List.foldl (step env) s evs) := by
  induction evs with
  | nil => intro s h; exact h
  | cons ev evs ih => intro s h; exact ih _ (step_validInv env s ev h)

lemma runEvents_validInv (env : Env) (evs : List Event) :
    validInv env (runEvents env evs) :=
  foldl_validInv env evs _ (applyPreviewEffect_validInv env initState)

lemma buttonDisabled_false (env : Env) (s : AppState)
    (h : buttonDisabled env s = false) :
    s.hasValidDiagram = true ∧ (chooseAddElement env.isSupported).isSome = true ∧
      s.isLoading = false := by
  unfold buttonDisabled at h
  rcases hce : chooseAddElement env.isSupported with _ | ep <;> rw [hce] at h <;>
    simp_all


lemma packageSvg_width_default (e : SvgElem)
    (h : e.widthAttr = none ∨ e.widthAttr = some ("")) :
    (packageSvg e).widthOut = some 440 := by
  have h400 : parseFloatJs ("400") = some (partsToRat (false, 400, 0, 0)) := rfl
  rcases h with h | h <;>
  · simp [packageSvg, h, jsOrStr, jsAdd, h400, partsToRat]
    norm_num

lemma packageSvg_height_default (e : SvgElem)
    (h : e.heightAttr = none ∨ e.heightAttr = some ("")) :
    (packageSvg e).heightOut = some 340 := by
  have h300 : parseFloatJs ("300") = some (partsToRat (false, 300, 0, 0)) := rfl
  rcases h with h | h <;>
  · simp [packageSvg, h, jsOrStr, jsAdd, h300, partsToRat]
    norm_num

lemma packageSvg_width_parsed (e : SvgElem) (w : String) (q : Rat)
    (hw : e.widthAttr = some w) (hq : parseFloatJs w = some q) :
    (packageSvg e).widthOut = some (q + 40) := by
  have hne : ¬w = "" := by
    rintro rfl
    rw [show parseFloatJs "" = none from rfl] at hq
    cases hq
  simp [packageSvg, hw, jsOrStr, hne, jsAdd, hq]
  norm_num

lemma packageSvg_height_parsed (e : SvgElem) (w : String) (q : Rat)
    (hw : e.heightAttr = some w) (hq : parseFloatJs w = some q) :
    (packageSvg e).heightOut = some (q + 40) := by
  have hne : ¬w = "" := by
    rintro rfl
    rw [show parseFloatJs "" = none from rfl] at hq
    cases hq
  simp [packageSvg, hw, jsOrStr, hne, jsAdd, hq]
  norm_num

lemma packageSvg_viewBox_adjusted (e : SvgElem) (vb : String) (x y w h : Rat)
    (hvb : e.viewBoxAttr = some vb) (hne : ¬vb = "")
    (hp : (splitSepsL vb.data).map (fun cs => parseFloatJs (String.mk cs)) =
      [some x, some y, some w, some h]) :
    (packageSvg e).viewBoxOut =
      ViewBoxOut.adjusted (some (x - 20)) (some (y - 20)) (some (w + 40)) (some (h + 40)) := by
  simp [packageSvg, hvb, hne, hp, jsIndex, jsSub, jsAdd]
  norm_num

lemma packageSvg_viewBox_none (e : SvgElem) (h : e.viewBoxAttr = none) :
    (packageSvg e).viewBoxOut = ViewBoxOut.kept none := by
  simp [packageSvg, h]

/-- The SVG element of the spec's concrete packaging scenarios:
declared width 400, height 300, no viewBox. -/
def svg400x300 : SvgElem := ⟨some ("400"), some ("300"), none⟩

/-- The same element with the spec's concrete viewBox `[0, 0, 100, 50]`. -/
def svgWithViewBox : SvgElem := ⟨some ("400"), some ("300"), some ("0 0 100 50")⟩

lemma packageSvg_400_300 :
    (packageSvg svg400x300).widthOut = some 440 ∧
    (packageSvg svg400x300).heightOut = some 340 ∧
    (packageSvg svg400x300).viewBoxOut = ViewBoxOut.kept none := by
  refine ⟨?_, ?_, ?_⟩
  · have := packageSvg_width_parsed svg400x300
      ("400") (partsToRat (false, 400, 0, 0)) rfl rfl
    rw [this]
    norm_num [partsToRat]
  · have := packageSvg_height_parsed svg400x300
      ("300") (partsToRat (false, 300, 0, 0)) rfl rfl
    rw [this]
    norm_num [partsToRat]
  · exact packageSvg_viewBox_none _ rfl

lemma packageSvg_0_0_100_50 :
    (packageSvg svgWithViewBox).viewBoxOut =
      ViewBoxOut.adjusted (some (-20)) (some (-20)) (some 140) (some 90) := by
  have hp : (splitSepsL ("0 0 100 50").data).map (fun cs => parseFloatJs (String.mk cs)) =
      [some (partsToRat (false, 0, 0, 0)), some (partsToRat (false, 0, 0, 0)),
        some (partsToRat (false, 100, 0, 0)), some (partsToRat (false, 50, 0, 0))] := rfl
  have := packageSvg_viewBox_adjusted svgWithViewBox
    ("0 0 100 50") (partsToRat (false, 0, 0, 0)) (partsToRat (false, 0, 0, 0))
    (partsToRat (false, 100, 0, 0)) (partsToRat (false, 50, 0, 0)) rfl (by decide) hp
  rw [this]
  norm_num [partsToRat]


lemma splitLinesL_ne_nil (l : List Char) : splitLinesL l ≠ [] := by
  cases l with
  | nil => simp [splitLinesL]
  | cons c t =>
    unfold splitLinesL
    split
    · simp
    · split <;> simp

lemma noNl_of_mem_splitLinesL (l : List Char) :
    ∀ m ∈ splitLinesL l, '\n' ∉ m := by
  induction l with
  | nil => intro m hm; simp [splitLinesL] at hm; simp [hm]
  | cons c t ih =>
    intro m hm
    unfold splitLinesL at hm
    by_cases hc : c = '\n'
    · rw [if_pos hc] at hm
      rw [List.mem_cons] at hm
      rcases hm with hm | hm
      · simp [hm]
      · exact ih m hm
    · rw [if_neg hc] at hm
      rcases hs : splitLinesL t with _ | ⟨h, r⟩
      · exact absurd hs (splitLinesL_ne_nil t)
      · rw [hs] at hm
        rw [List.mem_cons] at hm
        rcases hm with hm | hm
        · subst hm
          intro hmem
          rcases List.mem_cons.mp hmem with h1 | h1
          · exact hc h1.symm
          · exact ih h (by rw [hs]; exact List.mem_cons_self _ _) h1
        · exact ih m (by rw [hs]; exact List.mem_cons_of_mem _ hm)

lemma joinLinesL_splitLinesL (l : List Char) :
    joinLinesL (splitLinesL l) = l := by
  induction l with
  | nil => rfl
  | cons c t ih =>
    unfold splitLinesL
    by_cases hc : c = '\n'
    · rw [if_pos hc]
      rcases hs : splitLinesL t with _ | ⟨h, r⟩
      · exact absurd hs (splitLinesL_ne_nil t)
      · rw [hs] at ih
        subst hc
        show joinLinesL ([] :: h :: r) = '\n' :: t
        unfold joinLinesL
        simpa using ih
    · rw [if_neg hc]
      rcases hs : splitLinesL t with _ | ⟨h, r⟩
      · exact absurd hs (splitLinesL_ne_nil t)
      · rw [hs] at ih
        rcases r with _ | ⟨h2, r2⟩
        · show joinLinesL [c :: h] = c :: t
          unfold joinLinesL at ih ⊢
          simpa using ih
        · show joinLinesL ((c :: h) :: h2 :: r2) = c :: t
          unfold joinLinesL at ih ⊢
          simpa using ih


lemma splitLinesL_cons_nl (t : List Char) :
    splitLinesL ('\n' :: t) = [] :: splitLinesL t := by
  conv_lhs => unfold splitLinesL
  rw [if_pos rfl]

lemma splitLinesL_cons_of (c : Char) (t h : List Char) (r : List (List Char))
    (hc : ¬c = '\n') (hs : splitLinesL t = h :: r) :
    splitLinesL (c :: t) = (c :: h) :: r := by
  conv_lhs => unfold splitLinesL
  rw [if_neg hc, hs]

lemma splitLinesL_noNl (l : List Char) (h : '\n' ∉ l) : splitLinesL l = [l] := by
  induction l with
  | nil => rfl
  | cons c t ih =>
    have hc : ¬c = '\n' := fun hx => h (hx ▸ List.mem_cons_self c t)
    have ht : '\n' ∉ t := fun hx => h (List.mem_cons_of_mem c hx)
    unfold splitLinesL
    rw [if_neg hc, ih ht]

lemma splitLinesL_nl_append (l rest : List Char) (h : '\n' ∉ l) :
    splitLinesL (l ++ '\n' :: rest) = l :: splitLinesL rest := by
  induction l with
  | nil => simp [splitLinesL]
  | cons c t ih =>
    have hc : ¬c = '\n' := fun hx => h (hx ▸ List.mem_cons_self c t)
    have ht : '\n' ∉ t := fun hx => h (List.mem_cons_of_mem c hx)
    show splitLinesL (c :: (t ++ '\n' :: rest)) = (c :: t) :: splitLinesL rest
    exact splitLinesL_cons_of c _ t (splitLinesL rest) hc (ih ht)

lemma splitLinesL_joinLinesL (ls : List (List Char)) (hne : ls ≠ [])
    (hnl : ∀ m ∈ ls, '\n' ∉ m) : splitLinesL (joinLinesL ls) = ls := by
  induction ls with
  | nil => exact absurd rfl hne
  | cons m ls ih =>
    rcases ls with _ | ⟨m2, ls2⟩
    · show splitLinesL (joinLinesL [m]) = [m]
      unfold joinLinesL
      exact splitLinesL_noNl m (hnl m (List.mem_cons_self _ _))
    · show splitLinesL (joinLinesL (m :: m2 :: ls2)) = m :: m2 :: ls2
      unfold joinLinesL
      rw [splitLinesL_nl_append m _ (hnl m (List.mem_cons_self _ _))]
      rw [ih (by simp) (fun x hx => hnl x (List.mem_cons_of_mem _ hx))]

lemma mem_of_mem_splitLinesL (l : List Char) :
    ∀ m ∈ splitLinesL l, ∀ c ∈ m, c ∈ l := by
  induction l with
  | nil => intro m hm c hc; simp [splitLinesL] at hm; subst hm; cases hc
  | cons a t ih =>
    intro m hm c hc
    unfold splitLinesL at hm
    by_cases ha : a = '\n'
    · rw [if_pos ha, List.mem_cons] at hm
      rcases hm with hm | hm
      · subst hm; cases hc
      · exact List.mem_cons_of_mem a (ih m hm c hc)
    · rw [if_neg ha] at hm
      rcases hs : splitLinesL t with _ | ⟨h, r⟩
      · exact absurd hs (splitLinesL_ne_nil t)
      · rw [hs, List.mem_cons] at hm
        rcases hm with hm | hm
        · subst hm
          rcases List.mem_cons.mp hc with h1 | h1
          · exact h1 ▸ List.mem_cons_self a t
          · exact List.mem_cons_of_mem a
              (ih h (by rw [hs]; exact List.mem_cons_self _ _) c h1)
        · exact List.mem_cons_of_mem a
            (ih m (by rw [hs]; exact List.mem_cons_of_mem _ hm) c hc)

lemma mem_line_of_mem (l : List Char) :
    ∀ c ∈ l, c = '\n' ∨ ∃ m, m ∈ splitLinesL l ∧ c ∈ m := by
  induction l with
  | nil => intro c hc; cases hc
  | cons a t ih =>
    intro c hc
    unfold splitLinesL
    by_cases ha : a = '\n'
    · rw [if_pos ha]
      rcases List.mem_cons.mp hc with h1 | h1
      · left; rw [h1, ha]
      · rcases ih c h1 with h2 | ⟨m, hm, hcm⟩
        · left; exact h2
        · right; exact ⟨m, List.mem_cons_of_mem _ hm, hcm⟩
    · rw [if_neg ha]
      rcases hs : splitLinesL t with _ | ⟨h, r⟩
      · exact absurd hs (splitLinesL_ne_nil t)
      · rcases List.mem_cons.mp hc with h1 | h1
        · right
          exact ⟨a :: h, List.mem_cons_self _ _, h1 ▸ List.mem_cons_self a h⟩
        · rcases ih c h1 with h2 | ⟨m, hm, hcm⟩
          · left; exact h2
          · rw [hs, List.mem_cons] at hm
            rcases hm with hm | hm
            · right
              exact ⟨a :: h, List.mem_cons_self _ _, hm ▸ List.mem_cons_of_mem a hcm⟩
            · right
              exact ⟨m, List.mem_cons_of_mem _ hm, hcm⟩


lemma splitLinesL_append_nl (l : List Char) :
    splitLinesL (l ++ ['\n']) = splitLinesL l ++ [[]] := by
  induction l with
  | nil => rfl
  | cons c t ih =>
    by_cases hc : c = '\n'
    · subst hc
      show splitLinesL ('\n' :: (t ++ ['\n'])) = splitLinesL ('\n' :: t) ++ [[]]
      rw [splitLinesL_cons_nl, splitLinesL_cons_nl, ih]
      rfl
    · rcases hs : splitLinesL t with _ | ⟨h, r⟩
      · exact absurd hs (splitLinesL_ne_nil t)
      · show splitLinesL (c :: (t ++ ['\n'])) = splitLinesL (c :: t) ++ [[]]
        rw [splitLinesL_cons_of c t h r hc hs]
        rw [splitLinesL_cons_of c (t ++ ['\n']) h (r ++ [[]]) hc (by rw [ih, hs]; rfl)]
        rfl

lemma exists_concat_mem (a : Char) (ha : ¬a = '\n') (l : List Char) :
    ∃ m, m ++ [a] ∈ splitLinesL (l ++ [a]) := by
  induction l with
  | nil =>
    refine ⟨[], ?_⟩
    rw [show ([] : List Char) ++ [a] = [a] from rfl]
    rw [splitLinesL_noNl [a] (by simpa using Ne.symm ha)]
    exact List.mem_cons_self _ _
  | cons c t ih =>
    obtain ⟨m, hm⟩ := ih
    by_cases hc : c = '\n'
    · subst hc
      show ∃ m', m' ++ [a] ∈ splitLinesL ('\n' :: (t ++ [a]))
      rw [splitLinesL_cons_nl]
      exact ⟨m, List.mem_cons_of_mem _ hm⟩
    · rcases hs : splitLinesL (t ++ [a]) with _ | ⟨h, r⟩
      · exact absurd hs (splitLinesL_ne_nil _)
      · rw [hs, List.mem_cons] at hm
        show ∃ m', m' ++ [a] ∈ splitLinesL (c :: (t ++ [a]))
        rw [splitLinesL_cons_of c _ h r hc hs]
        rcases hm with hm | hm
        · exact ⟨c :: m, by rw [List.mem_cons]; left; rw [← hm]; rfl⟩
        · exact ⟨m, List.mem_cons_of_mem _ hm⟩


lemma trimEndL_idem (l : List Char) : trimEndL (trimEndL l) = trimEndL l :=
  List.rdropWhile_idempotent _ _

lemma trimEndL_eq_nil_iff (l : List Char) :
    trimEndL l = [] ↔ ∀ x ∈ l, isWsB x := List.rdropWhile_eq_nil_iff

lemma trimEndL_eq_self_iff (l : List Char) :
    trimEndL l = l ↔ ∀ hl : l ≠ [], ¬isWsB (l.getLast hl) :=
  List.rdropWhile_eq_self_iff

lemma mem_of_mem_trimEndL (l : List Char) (x : Char) (h : x ∈ trimEndL l) :
    x ∈ l := by
  unfold trimEndL List.rdropWhile at h
  rw [List.mem_reverse] at h
  have := (List.dropWhile_suffix (l := l.reverse) isWsB).sublist.subset h
  rwa [List.mem_reverse] at this

lemma length_trimEndL_le (l : List Char) : (trimEndL l).length ≤ l.length := by
  unfold trimEndL List.rdropWhile
  rw [List.length_reverse]
  calc (List.dropWhile isWsB l.reverse).length ≤ l.reverse.length :=
        (List.dropWhile_suffix isWsB).sublist.length_le
    _ = l.length := List.length_reverse l

lemma trimEndL_concat_ws (l : List Char) (a : Char) (ha : isWsB a) :
    trimEndL (l ++ [a]) = trimEndL l :=
  List.rdropWhile_concat_pos _ _ _ ha

lemma trimEndL_concat_not_ws (l : List Char) (a : Char) (ha : ¬isWsB a) :
    trimEndL (l ++ [a]) = l ++ [a] :=
  List.rdropWhile_concat_neg _ _ _ ha

lemma trimEndL_cons_fixed (c : Char) (h : List Char) (hws : isWsB c)
    (hf : trimEndL (c :: h) = c :: h) : h ≠ [] ∧ trimEndL h = h := by
  rcases hh : h with _ | ⟨d, t⟩
  · subst hh
    have := (trimEndL_eq_self_iff [c]).mp hf (by simp)
    rw [List.getLast_singleton'] at this
    exact absurd hws this
  · subst hh
    refine ⟨by simp, ?_⟩
    rw [trimEndL_eq_self_iff]
    intro hl
    have h2 := (trimEndL_eq_self_iff (c :: d :: t)).mp hf (by simp)
    rwa [List.getLast_cons (by simp : d :: t ≠ [])] at h2


/-- Every line of `l` is free of trailing whitespace. -/
def linesOk (l : List Char) : Prop := ∀ m ∈ splitLinesL l, trimEndL m = m

lemma linesOk_dropWhile (u : List Char) (h : linesOk u) :
    linesOk (u.dropWhile isWsB) := by
  induction u with
  | nil => simpa using h
  | cons c t ih =>
    by_cases hws : isWsB c
    · rw [List.dropWhile_cons_of_pos hws]
      by_cases hc : c = '\n'
      · refine ih ?_
        intro m hm
        refine h m ?_
        subst hc
        rw [splitLinesL_cons_nl]
        exact List.mem_cons_of_mem _ hm
      · rcases hs : splitLinesL t with _ | ⟨h1, r1⟩
        · exact absurd hs (splitLinesL_ne_nil t)
        · have hsplit := splitLinesL_cons_of c t h1 r1 hc hs
          have hch1 : trimEndL (c :: h1) = c :: h1 := by
            refine h (c :: h1) ?_
            rw [hsplit]
            exact List.mem_cons_self _ _
          obtain ⟨hne, hfix⟩ := trimEndL_cons_fixed c h1 hws hch1
          refine ih ?_
          intro m hm
          rw [hs, List.mem_cons] at hm
          rcases hm with hm | hm
          · subst hm; exact hfix
          · refine h m ?_
            rw [hsplit]
            exact List.mem_cons_of_mem _ hm
    · rwa [List.dropWhile_cons_of_neg hws]

lemma linesOk_trimEndL (u : List Char) (h : linesOk u) :
    linesOk (trimEndL u) := by
  induction u using List.reverseRecOn with
  | nil => simpa using h
  | append_singleton l a ih =>
    by_cases hws : isWsB a
    · by_cases ha : a = '\n'
      · rw [trimEndL_concat_ws l a hws]
        refine ih ?_
        intro m hm
        refine h m ?_
        subst ha
        rw [splitLinesL_append_nl]
        exact List.mem_append_left _ hm
      · exfalso
        obtain ⟨m, hm⟩ := exists_concat_mem a ha l
        have hfix := h (m ++ [a]) hm
        rw [trimEndL_concat_ws m a hws] at hfix
        have hlen := length_trimEndL_le m
        rw [hfix] at hlen
        simp at hlen
    · rwa [trimEndL_concat_not_ws l a hws]

lemma map_eq_self_of_forall {A : Type} (f : A → A) (l : List A)
    (h : ∀ a ∈ l, f a = a) : l.map f = l := by
  induction l with
  | nil => rfl
  | cons a t ih =>
    simp [h a (List.mem_cons_self a t),
      ih (fun x hx => h x (List.mem_cons_of_mem a hx))]

lemma map_trimEndL_of_linesOk (u : List Char) (h : linesOk u) :
    (splitLinesL u).map trimEndL = splitLinesL u :=
  map_eq_self_of_forall _ _ h


lemma trimEndL_fixed_dropWhile (u : List Char) (hf : trimEndL u = u) :
    trimEndL (u.dropWhile isWsB) = u.dropWhile isWsB := by
  rw [trimEndL_eq_self_iff] at hf ⊢
  intro hl
  obtain ⟨t, ht⟩ := List.dropWhile_suffix (l := u) isWsB
  have hu : u ≠ [] := by
    intro h0
    rw [h0] at hl
    simp at hl
  have h9 : u.getLast? = (u.dropWhile isWsB).getLast? := by
    conv_lhs => rw [← ht]
    exact List.getLast?_append_of_ne_nil t hl
  rw [List.getLast?_eq_getLast u hu, List.getLast?_eq_getLast _ hl] at h9
  rw [← Option.some.inj h9]
  exact hf hu

lemma jsTrimL_idem (l : List Char) : jsTrimL (jsTrimL l) = jsTrimL l := by
  have h1 : trimEndL ((trimEndL l).dropWhile isWsB) = (trimEndL l).dropWhile isWsB :=
    trimEndL_fixed_dropWhile _ (trimEndL_idem l)
  show (trimEndL ((trimEndL l).dropWhile isWsB)).dropWhile isWsB = jsTrimL l
  rw [h1, List.dropWhile_idempotent]
  rfl

lemma linesOk_join (x : List Char) :
    linesOk (joinLinesL ((splitLinesL x).map trimEndL)) := by
  have hne : (splitLinesL x).map trimEndL ≠ [] := by
    simpa using splitLinesL_ne_nil x
  have hnl : ∀ m ∈ (splitLinesL x).map trimEndL, '\n' ∉ m := by
    intro m hm
    rw [List.mem_map] at hm
    obtain ⟨m0, hm0, rfl⟩ := hm
    intro hc
    exact noNl_of_mem_splitLinesL x m0 hm0 (mem_of_mem_trimEndL m0 _ hc)
  intro m hm
  rw [splitLinesL_joinLinesL _ hne hnl, List.mem_map] at hm
  obtain ⟨m0, _, rfl⟩ := hm
  exact trimEndL_idem m0

lemma linesOk_jsTrimL (u : List Char) (h : linesOk u) : linesOk (jsTrimL u) :=
  linesOk_dropWhile _ (linesOk_trimEndL _ h)

lemma nomnomlCleanL_idem (x : List Char) :
    nomnomlCleanL (nomnomlCleanL x) = nomnomlCleanL x := by
  have h2 : linesOk (nomnomlCleanL x) := linesOk_jsTrimL _ (linesOk_join x)
  show jsTrimL (joinLinesL ((splitLinesL (nomnomlCleanL x)).map trimEndL)) =
    nomnomlCleanL x
  rw [map_trimEndL_of_linesOk _ h2, joinLinesL_splitLinesL]
  exact jsTrimL_idem _


lemma jsTrimL_eq_nil_iff (l : List Char) :
    jsTrimL l = [] ↔ ∀ c ∈ l, isWsB c := by
  unfold jsTrimL
  rw [List.dropWhile_eq_nil_iff]
  constructor
  · intro h c hc
    have hrev : c ∈ l.reverse := List.mem_reverse.mpr hc
    rw [← List.takeWhile_append_dropWhile (p := isWsB) (l := l.reverse)] at hrev
    rcases List.mem_append.mp hrev with h1 | h1
    · exact List.mem_takeWhile_imp h1
    · refine h c ?_
      unfold trimEndL List.rdropWhile
      rw [List.mem_reverse]
      exact h1
  · intro h x hx
    exact h x (mem_of_mem_trimEndL l x hx)

lemma allWs_lines_iff (l : List Char) :
    (∀ m ∈ (splitLinesL l).map trimEndL, m = []) ↔ ∀ c ∈ l, isWsB c := by
  constructor
  · intro h c hc
    rcases mem_line_of_mem l c hc with h1 | ⟨m, hm, hcm⟩
    · rw [h1]; decide
    · have h2 := h (trimEndL m) (List.mem_map_of_mem _ hm)
      rw [trimEndL_eq_nil_iff] at h2
      exact h2 c hcm
  · intro h m hm
    rw [List.mem_map] at hm
    obtain ⟨m0, hm0, rfl⟩ := hm
    rw [trimEndL_eq_nil_iff]
    intro x hx
    exact h x (mem_of_mem_splitLinesL l m0 hm0 x hx)

lemma blank_iff_of_lines_eq (a b : String)
    (h : (splitLinesL a.data).map trimEndL = (splitLinesL b.data).map trimEndL) :
    jsTrimL a.data = [] ↔ jsTrimL b.data = [] := by
  rw [jsTrimL_eq_nil_iff, jsTrimL_eq_nil_iff, ← allWs_lines_iff, ← allWs_lines_iff, h]

lemma nomnomlCleanStr_eq_of_lines_eq (a b : String)
    (h : (splitLinesL a.data).map trimEndL = (splitLinesL b.data).map trimEndL) :
    nomnomlCleanStr a = nomnomlCleanStr b := by
  unfold nomnomlCleanStr nomnomlCleanL
  rw [h]

lemma renderDiagram_nomnoml_eq (env : Env) (viz : Option Unit) (p q : Content)
    (a b : String)
    (h : (splitLinesL a.data).map trimEndL = (splitLinesL b.data).map trimEndL) :
    renderDiagram env DiagramSyn.nomnoml viz p a =
      renderDiagram env DiagramSyn.nomnoml viz q b := by
  have hclean := nomnomlCleanStr_eq_of_lines_eq a b h
  have hblank := blank_iff_of_lines_eq a b h
  unfold renderDiagram
  by_cases hb : jsTrimL a.data = []
  · rw [if_pos hb, if_pos (hblank.mp hb)]
  · rw [if_neg hb, if_neg (fun hx => hb (hblank.mpr hx))]
    simp only [hclean]

lemma nomnomlCleanStr_idem (s : String) :
    nomnomlCleanStr (nomnomlCleanStr s) = nomnomlCleanStr s := by
  unfold nomnomlCleanStr
  rw [show (String.mk (nomnomlCleanL s.data)).data = nomnomlCleanL s.data from rfl,
    nomnomlCleanL_idem]

/-! ## Sample environments and states for concrete runs -/

/-- A sample rendered SVG element (the shape Graphviz output takes). -/
def sampleSvg : SvgElem := ⟨some ("400"), some ("300"), none⟩

/-- A fully working environment: all renderers succeed, both insertion
entry points are supported, the export container is mounted, and the
host calls succeed. -/
def sampleEnv : Env :=
  { vizRender := fun _ => Except.ok sampleSvg
    nomnomlRenderSvg := fun _ => Except.ok sampleSvg
    jsonParse := fun s => Except.ok s
    renderAny := fun s => Except.ok s
    onmlStringify := fun _ => Except.ok sampleSvg
    isSupported := fun _ => true
    exportRefPresent := true
    uploadCall := fun _ => Except.ok 0
    insertCall := fun _ => Except.ok () }

/-- The working environment with a rejecting host upload call. -/
def uploadFailEnv : Env :=
  { sampleEnv with uploadCall := fun _ => Except.error () }

/-- The working environment in a context where no insertion entry point
is supported. -/
def noEntryEnv : Env :=
  { sampleEnv with isSupported := fun _ => false }

/-- A state with the Viz.js backend ready and a one-word Graphviz draft. -/
def stGv : AppState :=
  { syn := DiagramSyn.graphviz
    codeInput := "digraph"
    isLoading := false
    error := none
    hasValidDiagram := true
    vizInstance := some () }

set_option maxRecDepth 8192

/-! ## The claims -/

/-- Claim C1 — after any sequence of events (keystrokes, syntax-selector
changes, backend readiness, insertion runs) the validity flag
`hasValidDiagram` equals the outcome of rendering the current draft text
with the current syntax and backend handle, and the "Add to design"
button is enabled only when the flag is true, an insertion entry point
is usable, and no insertion is in progress. -/
theorem claim_C1_validity_invariant (env : Env) (evs : List Event) :
    ((runEvents env evs).hasValidDiagram =
      (renderDiagram env (runEvents env evs).syn (runEvents env evs).vizInstance
        Content.empty (runEvents env evs).codeInput).ok) ∧
    (buttonDisabled env (runEvents env evs) = false →
      (runEvents env evs).hasValidDiagram = true ∧
      (chooseAddElement env.isSupported).isSome = true ∧
      (runEvents env evs).isLoading = false) :=
  ⟨runEvents_validInv env evs, fun h => buttonDisabled_false env _ h⟩

/-- Witness for C1 at a concrete run: after the Viz.js backend becomes
ready, the default Graphviz draft renders, the flag is set, and the
button is enabled with all three conditions holding. -/
theorem claim_C1_witness :
    buttonDisabled sampleEnv (runEvents sampleEnv [Event.vizReady]) = false ∧
    ((runEvents sampleEnv [Event.vizReady]).hasValidDiagram =
      (renderDiagram sampleEnv (runEvents sampleEnv [Event.vizReady]).syn
        (runEvents sampleEnv [Event.vizReady]).vizInstance Content.empty
        (runEvents sampleEnv [Event.vizReady]).codeInput).ok) ∧
    ((runEvents sampleEnv [Event.vizReady]).hasValidDiagram = true ∧
      (chooseAddElement sampleEnv.isSupported).isSome = true ∧
      (runEvents sampleEnv [Event.vizReady]).isLoading = false) :=
  ⟨by decide, (claim_C1_validity_invariant sampleEnv [Event.vizReady]).1,
    (claim_C1_validity_invariant sampleEnv [Event.vizReady]).2 (by decide)⟩

/-- Counterexample to C2 as stated: an element whose width attribute is
present but unparseable (`"abc"`) is packaged with `NaN` width (the code
computes `parseFloat("abc") + 40 = NaN`), not with the claimed
400-default plus margin (440). -/
theorem claim_C2_counterexample :
    (packageSvg (⟨some ("abc"), some ("300"), none⟩ : SvgElem)).widthOut = none ∧
    ¬(packageSvg (⟨some ("abc"), some ("300"), none⟩ : SvgElem)).widthOut = some 440 := by
  constructor
  · decide
  · decide

/-- Claim C2 as amended — the 400×300 default applies when the width or
height attribute is absent or the empty string (JS falsiness), not when
it is unparseable; a parseable declared value is packaged as the value
plus 20 units of margin on each side; and the concrete element with
declared width 400, height 300 and no viewport rectangle is packaged
with width 440 and height 340. -/
theorem claim_C2_amended (e : SvgElem) :
    ((e.widthAttr = none ∨ e.widthAttr = some ("")) →
      (packageSvg e).widthOut = some 440) ∧
    ((e.heightAttr = none ∨ e.heightAttr = some ("")) →
      (packageSvg e).heightOut = some 340) ∧
    (∀ w q, e.widthAttr = some w → parseFloatJs w = some q →
      (packageSvg e).widthOut = some (q + 40)) ∧
    (∀ w q, e.heightAttr = some w → parseFloatJs w = some q →
      (packageSvg e).heightOut = some (q + 40)) ∧
    (packageSvg svg400x300).widthOut = some 440 ∧
    (packageSvg svg400x300).heightOut = some 340 :=
  ⟨packageSvg_width_default e, packageSvg_height_default e,
    fun w q hw hq => packageSvg_width_parsed e w q hw hq,
    fun w q hw hq => packageSvg_height_parsed e w q hw hq,
    packageSvg_400_300.1, packageSvg_400_300.2.1⟩

/-- Witness for the amended C2 at a concrete element with declared
width `"120"` and absent height. -/
theorem claim_C2_witness :
    parseFloatJs ("120") = some (partsToRat (false, 120, 0, 0)) ∧
    (packageSvg (⟨some ("120"), none, none⟩ : SvgElem)).widthOut =
      some (partsToRat (false, 120, 0, 0) + 40) ∧
    (packageSvg (⟨some ("120"), none, none⟩ : SvgElem)).heightOut = some 340 :=
  ⟨rfl,
    (claim_C2_amended ⟨some ("120"), none, none⟩).2.2.1 ("120") _ rfl rfl,
    (claim_C2_amended ⟨some ("120"), none, none⟩).2.1 (Or.inl rfl)⟩

/-- Counterexample to C3 as stated: in an environment whose upload call
rejects, an invocation whose export render succeeds makes one upload
call and zero insertion calls, not "exactly one upload call and then
exactly one insertion call". -/
theorem claim_C3_counterexample :
    (renderDiagram uploadFailEnv stGv.syn stGv.vizInstance Content.empty
      stGv.codeInput).ok = true ∧
    hostCalls (handleAddToDesign uploadFailEnv stGv Content.empty).2.2 =
      [Action.callUpload] := by
  constructor
  · decide
  · decide

/-- Claim C3 as amended — when the entry checks pass: a failed export
render makes zero upload and zero insertion calls; a successful export
render makes exactly one upload call, followed by exactly one insertion
call iff the upload call succeeds (so the insertion call is never
attempted before the upload call has succeeded). -/
theorem claim_C3_amended (env : Env) (s : AppState) (c : Content)
    (hA : (chooseAddElement env.isSupported).isSome = true)
    (hE : env.exportRefPresent = true) :
    ((renderDiagram env s.syn s.vizInstance c s.codeInput).ok = false →
      hostCalls (handleAddToDesign env s c).2.2 = []) ∧
    (∀ svgEl,
      (renderDiagram env s.syn s.vizInstance c s.codeInput).content =
        Content.filled svgEl →
      (∀ ref, env.uploadCall (packageSvg svgEl) = Except.ok ref →
        hostCalls (handleAddToDesign env s c).2.2 =
          [Action.callUpload, Action.callInsert]) ∧
      (∀ err, env.uploadCall (packageSvg svgEl) = Except.error err →
        hostCalls (handleAddToDesign env s c).2.2 = [Action.callUpload])) :=
  hATD_calls env s c hA hE

/-- Witness for the amended C3: a fully successful run makes the upload
call and then the insertion call, exactly once each. -/
theorem claim_C3_witness :
    (chooseAddElement sampleEnv.isSupported).isSome = true ∧
    (renderDiagram sampleEnv stGv.syn stGv.vizInstance Content.empty
      stGv.codeInput).content = Content.filled sampleSvg ∧
    hostCalls (handleAddToDesign sampleEnv stGv Content.empty).2.2 =
      [Action.callUpload, Action.callInsert] :=
  ⟨by decide, by decide,
    ((claim_C3_amended sampleEnv stGv Content.empty (by decide) rfl).2
      sampleSvg (by decide)).1 0 rfl⟩

/-- Claim C4 — for every syntax and every draft text consisting only of
whitespace, the render dispatcher returns failure, makes no external
renderer call, and leaves the mount point cleared of all prior content. -/
theorem claim_C4_blank_input (env : Env) (syn : DiagramSyn) (viz : Option Unit)
    (prior : Content) (code : String) (h : ∀ c ∈ code.data, isWsB c) :
    renderDiagram env syn viz prior code =
      { content := Content.empty, ok := false, calls := [] } :=
  renderDiagram_blank env syn viz prior code ((jsTrimL_eq_nil_iff code.data).mpr h)

/-- Witness for C4 at a whitespace-only draft. -/
theorem claim_C4_witness :
    (∀ c ∈ (" \n\t ").data, isWsB c) ∧
    renderDiagram sampleEnv DiagramSyn.wavedrom (some ())
      (Content.filled sampleSvg) (" \n\t ") =
      { content := Content.empty, ok := false, calls := [] } :=
  ⟨by decide,
    claim_C4_blank_input sampleEnv DiagramSyn.wavedrom (some ())
      (Content.filled sampleSvg) (" \n\t ") (by decide)⟩

/-- Claim C5 — the render dispatcher clears the mount point's prior
content before attempting a render (its result never depends on the
prior content), and every failure — including every caught renderer
exception, which the embedding models as `Except.error` results — leaves
the mount point empty, with no partial output. -/
theorem claim_C5_clears_and_catches (env : Env) (syn : DiagramSyn)
    (viz : Option Unit) (p q : Content) (code : String) :
    renderDiagram env syn viz p code = renderDiagram env syn viz q code ∧
    ((renderDiagram env syn viz p code).ok = false →
      (renderDiagram env syn viz p code).content = Content.empty) := by
  refine ⟨renderDiagram_indep env syn viz p q code, fun h => ?_⟩
  rcases renderDiagram_shape env syn viz p code with ⟨ht, _⟩ | ⟨_, hc⟩
  · rw [ht] at h; cases h
  · exact hc

/-- Witness for C5 at a failing render (Graphviz backend not ready) over
a non-empty prior content. -/
theorem claim_C5_witness :
    (renderDiagram sampleEnv DiagramSyn.graphviz none
      (Content.filled sampleSvg) ("x")).ok = false ∧
    (renderDiagram sampleEnv DiagramSyn.graphviz none
      (Content.filled sampleSvg) ("x")).content = Content.empty :=
  ⟨by decide,
    (claim_C5_clears_and_catches sampleEnv DiagramSyn.graphviz none
      (Content.filled sampleSvg) Content.empty ("x")).2 (by decide)⟩

/-- Claim C6 — two nomnoml inputs that differ only in trailing
whitespace at the end of individual lines are normalized to the same
string, render identically (same renderer call, same outcome, same
mount-point content), and the normalization is idempotent. -/
theorem claim_C6_normalization (env : Env) (viz : Option Unit)
    (p q : Content) (a b : String)
    (h : (splitLinesL a.data).map trimEndL = (splitLinesL b.data).map trimEndL) :
    nomnomlCleanStr a = nomnomlCleanStr b ∧
    renderDiagram env DiagramSyn.nomnoml viz p a =
      renderDiagram env DiagramSyn.nomnoml viz q b ∧
    (∀ s : String, nomnomlCleanStr (nomnomlCleanStr s) = nomnomlCleanStr s) :=
  ⟨nomnomlCleanStr_eq_of_lines_eq a b h,
    renderDiagram_nomnoml_eq env viz p q a b h,
    fun s => nomnomlCleanStr_idem s⟩

/-- Witness for C6 at two concrete inputs differing only in trailing
spaces on each line. -/
theorem claim_C6_witness :
    ((splitLinesL ("[A] \n[B]").data).map trimEndL =
      (splitLinesL ("[A]\n[B]  ").data).map trimEndL) ∧
    nomnomlCleanStr ("[A] \n[B]") = nomnomlCleanStr ("[A]\n[B]  ") ∧
    renderDiagram sampleEnv DiagramSyn.nomnoml none Content.empty ("[A] \n[B]") =
      renderDiagram sampleEnv DiagramSyn.nomnoml none Content.empty ("[A]\n[B]  ") :=
  ⟨by decide,
    (claim_C6_normalization sampleEnv none Content.empty Content.empty
      ("[A] \n[B]") ("[A]\n[B]  ") (by decide)).1,
    (claim_C6_normalization sampleEnv none Content.empty Content.empty
      ("[A] \n[B]") ("[A]\n[B]  ") (by decide)).2.1⟩

/-- Claim C7 — a declared viewport rectangle `[x, y, w, h]` is expanded
symmetrically by the 20-unit margin to `[x-20, y-20, w+40, h+40]`
(concretely `[0, 0, 100, 50]` becomes `[-20, -20, 140, 90]`); with no
declared viewport rectangle the element's geometry is left unchanged
beyond the width/height attributes. -/
theorem claim_C7_viewBox (e : SvgElem) :
    (∀ vb x y w h, e.viewBoxAttr = some vb → ¬vb = "" →
      (splitSepsL vb.data).map (fun cs => parseFloatJs (String.mk cs)) =
        [some x, some y, some w, some h] →
      (packageSvg e).viewBoxOut =
        ViewBoxOut.adjusted (some (x - 20)) (some (y - 20))
          (some (w + 40)) (some (h + 40))) ∧
    (e.viewBoxAttr = none → (packageSvg e).viewBoxOut = ViewBoxOut.kept none) ∧
    (packageSvg svgWithViewBox).viewBoxOut =
      ViewBoxOut.adjusted (some (-20)) (some (-20)) (some 140) (some 90) :=
  ⟨fun vb x y w h h1 h2 h3 => packageSvg_viewBox_adjusted e vb x y w h h1 h2 h3,
    packageSvg_viewBox_none e, packageSvg_0_0_100_50⟩

/-- Witness for C7 at the concrete viewBox `"0 0 100 50"`. -/
theorem claim_C7_witness :
    svgWithViewBox.viewBoxAttr = some ("0 0 100 50") ∧
    (packageSvg svgWithViewBox).viewBoxOut =
      ViewBoxOut.adjusted (some (partsToRat (false, 0, 0, 0) - 20))
        (some (partsToRat (false, 0, 0, 0) - 20))
        (some (partsToRat (false, 100, 0, 0) + 40))
        (some (partsToRat (false, 50, 0, 0) + 40)) :=
  ⟨rfl,
    (claim_C7_viewBox svgWithViewBox).1 ("0 0 100 50") _ _ _ _ rfl (by decide) rfl⟩

/-- Claim C8 — whenever the insertion handler runs past its entry
checks, the busy flag is set to true as the first action, and every
exit path — success, caught failure, or thrown error — ends by clearing
it, so the final state's busy flag is false. -/
theorem claim_C8_busy_flag (env : Env) (s : AppState) (c : Content)
    (hA : (chooseAddElement env.isSupported).isSome = true)
    (hE : env.exportRefPresent = true) :
    (handleAddToDesign env s c).1.isLoading = false ∧
    (handleAddToDesign env s c).2.2.head? = some (Action.setLoading true) ∧
    (handleAddToDesign env s c).2.2.getLast? = some (Action.setLoading false) :=
  hATD_busy env s c hA hE

/-- Witness for C8 at a concrete successful run. -/
theorem claim_C8_witness :
    (chooseAddElement sampleEnv.isSupported).isSome = true ∧
    sampleEnv.exportRefPresent = true ∧
    ((handleAddToDesign sampleEnv stGv Content.empty).1.isLoading = false ∧
      (handleAddToDesign sampleEnv stGv Content.empty).2.2.head? =
        some (Action.setLoading true) ∧
      (handleAddToDesign sampleEnv stGv Content.empty).2.2.getLast? =
        some (Action.setLoading false)) :=
  ⟨by decide, rfl, claim_C8_busy_flag sampleEnv stGv Content.empty (by decide) rfl⟩

/-- Claim C9 — for every input text, a Graphviz render call made before
the one-time backend initialization has completed (`vizInstance` still
absent) returns a failure result with no external call and a cleared
mount point, rather than throwing (the embedding is total). -/
theorem claim_C9_graphviz_not_ready (env : Env) (prior : Content) (code : String) :
    renderDiagram env DiagramSyn.graphviz none prior code =
      { content := Content.empty, ok := false, calls := [] } :=
  renderDiagram_gv_none env prior code

/-- Claim C10 — when no insertion entry point is usable or the export
container is missing, the insertion handler returns immediately: the
state is unchanged (busy flag never set, error neither set nor
cleared), the export container is untouched, and no render, upload or
insertion action is performed (empty trace). -/
theorem claim_C10_early_return (env : Env) (s : AppState) (c : Content)
    (h : chooseAddElement env.isSupported = none ∨ env.exportRefPresent = false) :
    handleAddToDesign env s c = (s, c, []) :=
  hATD_early env s c h

/-- Witness for C10 in a context supporting no insertion entry point. -/
theorem claim_C10_witness :
    (chooseAddElement noEntryEnv.isSupported = none ∨
      noEntryEnv.exportRefPresent = false) ∧
    handleAddToDesign noEntryEnv stGv Content.empty = (stGv, Content.empty, []) :=
  ⟨Or.inl (by decide),
    claim_C10_early_return noEntryEnv stGv Content.empty (Or.inl (by decide))⟩

end CodeToDiagram
